import Mathlib

/-!
Verification of the rule-reconciliation core of `sync_security_group.py`.

The script converges the ingress rules of an EC2 security group: it makes sure an
SSH (port 22) rule open to `0.0.0.0/0` exists, and replaces the HTTP (port 80)
CIDR set by a desired set (home address plus CDN ranges) using one revoke and
one authorize call.  CIDRs are uninterpreted strings; sets of CIDRs are `Finset String`.
-/

namespace SyncSecurityGroup

/-- Configured SSH port, `SSH_PORT = 22` in `sync_security_group.py`. -/
def SSH_PORT : Int := 22

/-- Configured HTTP port, `HTTP_PORT = 80` in `sync_security_group.py`. -/
def HTTP_PORT : Int := 80

/-- One entry of the `IpPermissions` list returned by `describe_security_groups`:
`FromPort` and `ToPort` may be absent (the code reads them with `perm.get`),
`ipProtocol` is the `IpProtocol` field, and `ipRanges` collects the `CidrIp`
strings of the `IpRanges` of the entry. -/
structure Perm where
  fromPort : Option Int
  toPort : Option Int
  ipProtocol : String
  ipRanges : List String
  deriving DecidableEq

/-- One call to the firewall-mutation sink: `authorize_security_group_ingress`
when `isAuthorize` is true, `revoke_security_group_ingress` otherwise, together
with the single `IpPermissions` entry the script passes to it (a protocol, an
equal from/to port, and the set of CIDRs of its `IpRanges`). -/
structure Mutation where
  isAuthorize : Bool
  ipProtocol : String
  fromPort : Int
  toPort : Int
  cidrs : Finset String
  deriving DecidableEq

/-- Lines 122-128 of `update_security_group`: scan the current permissions for a
port-22 entry whose ranges contain `0.0.0.0/0`. -/
def ssh_open (perms : List Perm) : Bool :=
  perms.any fun p =>
    decide (p.fromPort = some SSH_PORT ∧ p.toPort = some SSH_PORT ∧ "0.0.0.0/0" ∈ p.ipRanges)

/-- Lines 144-148: the set of `CidrIp`s of every range of every permission whose
`FromPort` and `ToPort` both equal `HTTP_PORT`. -/
def current_http_cidrs (perms : List Perm) : Finset String :=
  ((perms.filter fun p =>
      decide (p.fromPort = some HTTP_PORT ∧ p.toPort = some HTTP_PORT)).flatMap
    fun p => p.ipRanges).toFinset

/-- Line 153: `to_revoke = current_http_cidrs - target_http_cidrs`. -/
def to_revoke (perms : List Perm) (target : Finset String) : Finset String :=
  current_http_cidrs perms \ target

/-- Line 154: `to_authorize = target_http_cidrs - current_http_cidrs`. -/
def to_authorize (perms : List Perm) (target : Finset String) : Finset String :=
  target \ current_http_cidrs perms

/-- The SSH mutation of lines 132-140: authorize tcp port 22 for `0.0.0.0/0`. -/
def ssh_mutation : Mutation := ⟨true, "tcp", SSH_PORT, SSH_PORT, {"0.0.0.0/0"}⟩

/-- The sequence of mutation calls issued by `update_security_group` on a list
of current permissions (lines 130-180): an SSH authorize when no open SSH rule
exists, then one revoke of `to_revoke` when non-empty, then one authorize of
`to_authorize` when non-empty, each on tcp port 80 with the whole set batched
into the single call. -/
def update_mutations (perms : List Perm) (allowed_cidrs : List String) : List Mutation :=
  (if ssh_open perms then [] else [ssh_mutation]) ++
    (if to_revoke perms allowed_cidrs.toFinset = ∅ then []
     else [⟨false, "tcp", HTTP_PORT, HTTP_PORT, to_revoke perms allowed_cidrs.toFinset⟩]) ++
    (if to_authorize perms allowed_cidrs.toFinset = ∅ then []
     else [⟨true, "tcp", HTTP_PORT, HTTP_PORT, to_authorize perms allowed_cidrs.toFinset⟩])

/-- The function `update_security_group` (lines 114-185), as a function of the
outcome of its `describe_security_groups` read: `none` models a failed read
(the script exits before any mutation is attempted, so no mutations and
failure), `some perms` yields the emitted mutation calls and success. -/
def update_security_group (readResult : Option (List Perm)) (allowed_cidrs : List String) :
    List Mutation × Bool :=
  match readResult with
  | none => ([], false)
  | some perms => (update_mutations perms allowed_cidrs, true)

/-- Membership in `current_http_cidrs`: the CIDRs contributed by port-80/80
permissions, regardless of protocol. -/
theorem mem_current_http_cidrs {perms : List Perm} {c : String} :
    c ∈ current_http_cidrs perms ↔
      ∃ p ∈ perms, p.fromPort = some HTTP_PORT ∧ p.toPort = some HTTP_PORT ∧ c ∈ p.ipRanges := by
  simp only [current_http_cidrs, List.mem_toFinset, List.mem_flatMap, List.mem_filter,
    decide_eq_true_eq]
  tauto

/-- Characterisation of the SSH scan of lines 122-128. -/
theorem ssh_open_iff {perms : List Perm} :
    ssh_open perms = true ↔
      ∃ p ∈ perms, p.fromPort = some SSH_PORT ∧ p.toPort = some SSH_PORT ∧
        "0.0.0.0/0" ∈ p.ipRanges := by
  simp [ssh_open, List.any_eq_true]

/-! ### A port-indexed semantics for applying mutations

The firewall state relevant to the script is the set of (port, CIDR) pairs of
single-port permissions; applying an authorize call adds its pairs, applying a
revoke call removes them.  This mirrors how the script itself classifies rules:
by `FromPort`/`ToPort` only. -/

/-- The (port, CIDR) pairs of the single `IpPermissions` entry of a mutation. -/
def Mutation.pairs (m : Mutation) : Finset (Int × String) :=
  m.cidrs.image fun c => (m.fromPort, c)

/-- Effect of one mutation call on the (port, CIDR) pair set of the firewall. -/
def applyMutation (s : Finset (Int × String)) (m : Mutation) : Finset (Int × String) :=
  if m.isAuthorize then s ∪ m.pairs else s \ m.pairs

/-- Effect of a sequence of mutation calls, applied in order. -/
def applyAll (s : Finset (Int × String)) (ms : List Mutation) : Finset (Int × String) :=
  ms.foldl applyMutation s

/-- The (port, CIDR) pairs described by one permission: one pair per range when
`FromPort` and `ToPort` agree, none otherwise. -/
def permPairs (p : Perm) : List (Int × String) :=
  match p.fromPort, p.toPort with
  | some a, some b => if a = b then p.ipRanges.map fun c => (a, c) else []
  | _, _ => []

/-- The (port, CIDR) pairs described by a list of permissions. -/
def statePairs (perms : List Perm) : Finset (Int × String) :=
  (perms.flatMap permPairs).toFinset

/-- The CIDR set a pair state holds at one port. -/
def portCidrs (s : Finset (Int × String)) (port : Int) : Finset String :=
  (s.filter fun q => q.1 = port).image fun q => q.2

theorem mem_portCidrs {s : Finset (Int × String)} {port : Int} {c : String} :
    c ∈ portCidrs s port ↔ (port, c) ∈ s := by
  constructor
  · rintro h
    simp only [portCidrs, Finset.mem_image, Finset.mem_filter] at h
    obtain ⟨⟨a, b⟩, ⟨hs, h1⟩, h2⟩ := h
    simp only at h1 h2
    subst h1; subst h2; exact hs
  · intro h
    simp only [portCidrs, Finset.mem_image, Finset.mem_filter]
    exact ⟨(port, c), ⟨h, rfl⟩, rfl⟩

theorem mem_permPairs {p : Perm} {a : Int} {c : String} :
    (a, c) ∈ permPairs p ↔
      p.fromPort = some a ∧ p.toPort = some a ∧ c ∈ p.ipRanges := by
  obtain ⟨fp, tp, proto, ranges⟩ := p
  rcases fp with _ | x <;> rcases tp with _ | y <;> simp only [permPairs]
  case none.none => simp
  case none.some => simp
  case some.none => simp
  case some.some =>
    by_cases hxy : x = y
    · subst hxy
      simp [List.mem_map, Prod.ext_iff, eq_comm]
      aesop
    · simp only [if_neg hxy, List.not_mem_nil, false_iff, not_and, Option.some.injEq]
      rintro rfl rfl
      exact absurd rfl hxy

theorem mem_statePairs {perms : List Perm} {a : Int} {c : String} :
    (a, c) ∈ statePairs perms ↔
      ∃ p ∈ perms, p.fromPort = some a ∧ p.toPort = some a ∧ c ∈ p.ipRanges := by
  simp only [statePairs, List.mem_toFinset, List.mem_flatMap]
  constructor
  · rintro ⟨p, hp, hm⟩
    exact ⟨p, hp, mem_permPairs.mp hm⟩
  · rintro ⟨p, hp, h⟩
    exact ⟨p, hp, mem_permPairs.mpr h⟩

/-- The HTTP classification of the script agrees with the pair semantics. -/
theorem portCidrs_statePairs (perms : List Perm) :
    portCidrs (statePairs perms) HTTP_PORT = current_http_cidrs perms := by
  ext c
  rw [mem_portCidrs, mem_statePairs, mem_current_http_cidrs]

/-- The SSH scan of the script agrees with the pair semantics. -/
theorem ssh_open_iff_mem_statePairs {perms : List Perm} :
    ssh_open perms = true ↔ (SSH_PORT, "0.0.0.0/0") ∈ statePairs perms := by
  rw [ssh_open_iff, mem_statePairs]

theorem mem_pairs {m : Mutation} {a : Int} {c : String} :
    (a, c) ∈ m.pairs ↔ a = m.fromPort ∧ c ∈ m.cidrs := by
  simp only [Mutation.pairs, Finset.mem_image]
  constructor
  · rintro ⟨c', hc', heq⟩
    obtain ⟨h1, h2⟩ := Prod.mk.injEq .. ▸ heq
    exact ⟨h1.symm, h2 ▸ hc'⟩
  · rintro ⟨h1, h2⟩
    exact ⟨c, h2, by rw [h1]⟩

theorem portCidrs_applyMutation_ne {s : Finset (Int × String)} {m : Mutation} {port : Int}
    (h : m.fromPort ≠ port) : portCidrs (applyMutation s m) port = portCidrs s port := by
  have h' : ¬ (port = m.fromPort) := fun hc => h hc.symm
  ext c
  rcases ha : m.isAuthorize with _ | _ <;>
    simp only [applyMutation, ha, Bool.false_eq_true, if_false, if_true, mem_portCidrs,
      Finset.mem_union, Finset.mem_sdiff, mem_pairs] <;>
    tauto

theorem portCidrs_applyMutation_auth {s : Finset (Int × String)} {m : Mutation} {port : Int}
    (hp : m.fromPort = port) (ha : m.isAuthorize = true) :
    portCidrs (applyMutation s m) port = portCidrs s port ∪ m.cidrs := by
  ext c
  simp [applyMutation, ha, mem_portCidrs, Finset.mem_union, mem_pairs, hp]

theorem portCidrs_applyMutation_rev {s : Finset (Int × String)} {m : Mutation} {port : Int}
    (hp : m.fromPort = port) (ha : m.isAuthorize = false) :
    portCidrs (applyMutation s m) port = portCidrs s port \ m.cidrs := by
  ext c
  simp [applyMutation, ha, mem_portCidrs, Finset.mem_sdiff, mem_pairs, hp]

theorem applyAll_append (s : Finset (Int × String)) (l1 l2 : List Mutation) :
    applyAll s (l1 ++ l2) = applyAll (applyAll s l1) l2 :=
  List.foldl_append applyMutation s l1 l2

theorem applyAll_singleton (s : Finset (Int × String)) (m : Mutation) :
    applyAll s [m] = applyMutation s m := rfl

theorem reconcile_set_identity (cur t : Finset String) :
    (cur \ (cur \ t)) ∪ (t \ cur) = t := by
  ext x
  simp only [Finset.mem_union, Finset.mem_sdiff, not_and, not_not]
  tauto

/-! ### The claims -/

/-- The permissions of the concrete diff example in the spec: one HTTP rule holding
`1.1.1.1/32` and `2.2.2.2/32`. -/
def permsDiffExample : List Perm :=
  [⟨some 80, some 80, "tcp", ["1.1.1.1/32", "2.2.2.2/32"]⟩]

/-- The desired set of the concrete diff example in the spec. -/
def targetDiffExample : Finset String := {"2.2.2.2/32", "3.3.3.3/32"}

/-- Claim C1: the revoke set is exactly current minus desired and the authorize
set exactly desired minus current, with current empty when no HTTP-port rule is
present; on current `{1.1.1.1/32, 2.2.2.2/32}` and desired
`{2.2.2.2/32, 3.3.3.3/32}` the revoke set is `{1.1.1.1/32}` and the authorize
set `{3.3.3.3/32}`. -/
theorem c1_diff_is_set_difference (perms : List Perm) (target : Finset String) :
    (∀ c, c ∈ to_revoke perms target ↔ c ∈ current_http_cidrs perms ∧ c ∉ target) ∧
    (∀ c, c ∈ to_authorize perms target ↔ c ∈ target ∧ c ∉ current_http_cidrs perms) ∧
    ((∀ p ∈ perms, ¬ (p.fromPort = some HTTP_PORT ∧ p.toPort = some HTTP_PORT)) →
      current_http_cidrs perms = ∅) ∧
    to_revoke permsDiffExample targetDiffExample = {"1.1.1.1/32"} ∧
    to_authorize permsDiffExample targetDiffExample = {"3.3.3.3/32"} := by
  refine ⟨fun c => Finset.mem_sdiff, fun c => Finset.mem_sdiff, ?_, by decide, by decide⟩
  intro h
  ext c
  simp only [mem_current_http_cidrs, Finset.not_mem_empty, iff_false]
  rintro ⟨p, hp, h1, h2, _⟩
  exact h p hp ⟨h1, h2⟩

/-- Witness for C1 at a concrete input with no HTTP-port rule. -/
theorem c1_diff_is_set_difference_witness :
    current_http_cidrs [⟨some 22, some 22, "tcp", ["0.0.0.0/0"]⟩] = ∅ :=
  (c1_diff_is_set_difference [⟨some 22, some 22, "tcp", ["0.0.0.0/0"]⟩] ∅).2.2.1 (by decide)

/-- Claim C2: applying the emitted mutations (revoke, then authorize) to the
current state yields an HTTP CIDR set exactly equal to the desired set. -/
theorem c2_http_converges_to_target (perms : List Perm) (allowed : List String) :
    portCidrs (applyAll (statePairs perms) (update_mutations perms allowed)) HTTP_PORT
      = allowed.toFinset := by
  classical
  have h1 : portCidrs (applyAll (statePairs perms)
      (if ssh_open perms then [] else [ssh_mutation])) HTTP_PORT
      = current_http_cidrs perms := by
    by_cases hs : ssh_open perms = true
    · rw [if_pos hs]
      exact portCidrs_statePairs perms
    · rw [if_neg hs, applyAll_singleton, portCidrs_applyMutation_ne (by decide)]
      exact portCidrs_statePairs perms
  have h2 : portCidrs (applyAll (applyAll (statePairs perms)
      (if ssh_open perms then [] else [ssh_mutation]))
      (if to_revoke perms allowed.toFinset = ∅ then []
       else [⟨false, "tcp", HTTP_PORT, HTTP_PORT, to_revoke perms allowed.toFinset⟩]))
      HTTP_PORT
      = current_http_cidrs perms \ to_revoke perms allowed.toFinset := by
    by_cases hr : to_revoke perms allowed.toFinset = ∅
    · rw [if_pos hr, hr, Finset.sdiff_empty]
      exact h1
    · rw [if_neg hr, applyAll_singleton, portCidrs_applyMutation_rev rfl rfl, h1]
  have h3 : portCidrs (applyAll (statePairs perms) (update_mutations perms allowed)) HTTP_PORT
      = (current_http_cidrs perms \ to_revoke perms allowed.toFinset)
          ∪ to_authorize perms allowed.toFinset := by
    rw [update_mutations, applyAll_append, applyAll_append]
    by_cases ha : to_authorize perms allowed.toFinset = ∅
    · rw [if_pos ha, ha, Finset.union_empty]
      exact h2
    · rw [if_neg ha, applyAll_singleton, portCidrs_applyMutation_auth rfl rfl, h2]
  rw [h3, to_revoke, to_authorize]
  exact reconcile_set_identity (current_http_cidrs perms) allowed.toFinset

theorem mem_update_mutations {perms : List Perm} {allowed : List String} {m : Mutation} :
    m ∈ update_mutations perms allowed ↔
      (ssh_open perms = false ∧ m = ssh_mutation) ∨
      (to_revoke perms allowed.toFinset ≠ ∅ ∧
        m = ⟨false, "tcp", HTTP_PORT, HTTP_PORT, to_revoke perms allowed.toFinset⟩) ∨
      (to_authorize perms allowed.toFinset ≠ ∅ ∧
        m = ⟨true, "tcp", HTTP_PORT, HTTP_PORT, to_authorize perms allowed.toFinset⟩) := by
  cases hs : ssh_open perms <;>
    by_cases hr : to_revoke perms allowed.toFinset = ∅ <;>
    by_cases ha : to_authorize perms allowed.toFinset = ∅ <;>
    simp [update_mutations, hs, hr, ha]

/-- Membership survives a mutation that authorizes, or whose port differs from
the port of the pair. -/
theorem mem_applyMutation_of {s : Finset (Int × String)} {q : Int × String} {m : Mutation}
    (hm : m.isAuthorize = true ∨ m.fromPort ≠ q.1) (hq : q ∈ s) : q ∈ applyMutation s m := by
  obtain ⟨a, c⟩ := q
  rcases hma : m.isAuthorize with _ | _
  · rcases hm with hm | hm
    · rw [hma] at hm; cases hm
    · simp only [applyMutation, hma, Bool.false_eq_true, if_false, Finset.mem_sdiff, mem_pairs]
      exact ⟨hq, fun hc => hm (by rw [hc.1])⟩
  · simp only [applyMutation, hma, if_true, Finset.mem_union]
    exact Or.inl hq

theorem mem_applyAll_of {s : Finset (Int × String)} {q : Int × String} {ms : List Mutation}
    (hms : ∀ m ∈ ms, m.isAuthorize = true ∨ m.fromPort ≠ q.1)
    (hq : q ∈ s) : q ∈ applyAll s ms := by
  induction ms generalizing s with
  | nil => exact hq
  | cons m rest ih =>
    exact ih (fun m' hm' => hms m' (List.mem_cons_of_mem m hm'))
      (mem_applyMutation_of (hms m (List.mem_cons_self m rest)) hq)

/-- Claim C4: reconcile never revokes any SSH-port entry — every revoke it emits
is on the HTTP port, an existing (22, 0.0.0.0/0) pair survives the whole emitted
mutation sequence — and the all-addresses SSH rule is added exactly when
absent. -/
theorem c4_ssh_monotonic (perms : List Perm) (allowed : List String) :
    (∀ m ∈ update_mutations perms allowed, m.isAuthorize = false →
        m.fromPort = HTTP_PORT ∧ m.toPort = HTTP_PORT) ∧
    ((SSH_PORT, "0.0.0.0/0") ∈ statePairs perms →
      (SSH_PORT, "0.0.0.0/0") ∈ applyAll (statePairs perms) (update_mutations perms allowed)) ∧
    (ssh_mutation ∈ update_mutations perms allowed ↔ ssh_open perms = false) := by
  refine ⟨?_, ?_, ?_⟩
  · intro m hm hrev
    rcases mem_update_mutations.mp hm with ⟨_, rfl⟩ | ⟨_, rfl⟩ | ⟨_, rfl⟩
    · exact Bool.noConfusion hrev
    · exact ⟨rfl, rfl⟩
    · exact Bool.noConfusion hrev
  · intro hmem
    have hne : (HTTP_PORT : Int) ≠ SSH_PORT := by decide
    refine mem_applyAll_of ?_ hmem
    intro m hm
    rcases mem_update_mutations.mp hm with ⟨_, rfl⟩ | ⟨_, rfl⟩ | ⟨_, rfl⟩
    · exact Or.inl rfl
    · exact Or.inr hne
    · exact Or.inl rfl
  · constructor
    · intro hm
      have h22 : (SSH_PORT : Int) ≠ HTTP_PORT := by decide
      rcases mem_update_mutations.mp hm with ⟨h, _⟩ | ⟨_, h⟩ | ⟨_, h⟩
      · exact h
      · exact Bool.noConfusion (congrArg Mutation.isAuthorize h)
      · exact absurd (congrArg Mutation.fromPort h) h22
    · intro h
      exact mem_update_mutations.mpr (Or.inl ⟨h, rfl⟩)

/-- A list of permissions with an open SSH rule and no HTTP rule. -/
def permsSshOnly : List Perm := [⟨some 22, some 22, "tcp", ["0.0.0.0/0"]⟩]

/-- Witness for C4: the open SSH pair survives a run that rewrites HTTP. -/
theorem c4_ssh_monotonic_witness :
    (SSH_PORT, "0.0.0.0/0") ∈
      applyAll (statePairs permsSshOnly) (update_mutations permsSshOnly ["5.5.5.5/32"]) :=
  (c4_ssh_monotonic permsSshOnly ["5.5.5.5/32"]).2.1 (by decide)

/-- Claim C3: when the HTTP set already equals the desired set and an open SSH
rule is present, `update_security_group` emits no mutations and succeeds. -/
theorem c3_noop_when_converged (perms : List Perm) (allowed : List String)
    (hssh : ssh_open perms = true)
    (heq : current_http_cidrs perms = allowed.toFinset) :
    update_security_group (some perms) allowed = ([], true) := by
  simp [update_security_group, update_mutations, hssh, to_revoke, to_authorize, heq]

/-- A state already converged to desired set `{1.1.1.1/32}` with SSH open. -/
def permsConverged : List Perm :=
  [⟨some 22, some 22, "tcp", ["0.0.0.0/0"]⟩, ⟨some 80, some 80, "tcp", ["1.1.1.1/32"]⟩]

/-- Witness for C3 at a concrete converged state. -/
theorem c3_noop_when_converged_witness :
    update_security_group (some permsConverged) ["1.1.1.1/32"] = ([], true) :=
  c3_noop_when_converged permsConverged ["1.1.1.1/32"] (by decide) (by decide)

/-- Boolean classifier: an SSH add call (authorize on the SSH port). -/
def is_ssh_add (m : Mutation) : Bool := m.isAuthorize && m.fromPort == SSH_PORT

/-- Boolean classifier: a revoke call. -/
def is_revoke (m : Mutation) : Bool := !m.isAuthorize

/-- Boolean classifier: an HTTP authorize call. -/
def is_http_auth (m : Mutation) : Bool := m.isAuthorize && m.fromPort == HTTP_PORT

/-- Claim C5: at most three mutation calls per run — at most one SSH add, one
revoke, one HTTP authorize — and each HTTP call batches the whole CIDR set of its direction. -/
theorem c5_at_most_three_calls (perms : List Perm) (allowed : List String) :
    (update_mutations perms allowed).length ≤ 3 ∧
    ((update_mutations perms allowed).countP is_ssh_add) ≤ 1 ∧
    ((update_mutations perms allowed).countP is_revoke) ≤ 1 ∧
    ((update_mutations perms allowed).countP is_http_auth) ≤ 1 ∧
    (∀ m ∈ update_mutations perms allowed, is_revoke m = true →
        m.cidrs = to_revoke perms allowed.toFinset) ∧
    (∀ m ∈ update_mutations perms allowed, is_http_auth m = true →
        m.cidrs = to_authorize perms allowed.toFinset) := by
  refine ⟨?_, ?_, ?_, ?_, ?_, ?_⟩
  · cases hs : ssh_open perms <;>
      by_cases hr : to_revoke perms allowed.toFinset = ∅ <;>
      by_cases ha : to_authorize perms allowed.toFinset = ∅ <;>
      simp [update_mutations, hs, hr, ha]
  · cases hs : ssh_open perms <;>
      by_cases hr : to_revoke perms allowed.toFinset = ∅ <;>
      by_cases ha : to_authorize perms allowed.toFinset = ∅ <;>
      simp [update_mutations, hs, hr, ha, is_ssh_add, ssh_mutation, List.countP_cons,
        List.countP_nil, SSH_PORT, HTTP_PORT]
  · cases hs : ssh_open perms <;>
      by_cases hr : to_revoke perms allowed.toFinset = ∅ <;>
      by_cases ha : to_authorize perms allowed.toFinset = ∅ <;>
      simp [update_mutations, hs, hr, ha, is_revoke, ssh_mutation, List.countP_cons,
        List.countP_nil]
  · cases hs : ssh_open perms <;>
      by_cases hr : to_revoke perms allowed.toFinset = ∅ <;>
      by_cases ha : to_authorize perms allowed.toFinset = ∅ <;>
      simp [update_mutations, hs, hr, ha, is_http_auth, ssh_mutation, List.countP_cons,
        List.countP_nil, SSH_PORT, HTTP_PORT]
  · intro m hm hrev
    rcases mem_update_mutations.mp hm with ⟨_, rfl⟩ | ⟨_, rfl⟩ | ⟨_, rfl⟩
    · exact Bool.noConfusion hrev
    · rfl
    · exact Bool.noConfusion hrev
  · intro m hm hauth
    rcases mem_update_mutations.mp hm with ⟨_, rfl⟩ | ⟨_, rfl⟩ | ⟨_, rfl⟩
    · exact Bool.noConfusion hauth
    · exact Bool.noConfusion hauth
    · rfl

/-- A state with neither SSH nor the desired HTTP entry. -/
def permsStale : List Perm := [⟨some 80, some 80, "tcp", ["1.1.1.1/32"]⟩]

/-- Witness for C5: the single revoke call of a concrete run batches exactly
the computed revoke set. -/
theorem c5_at_most_three_calls_witness :
    (Mutation.mk false "tcp" HTTP_PORT HTTP_PORT {"1.1.1.1/32"}).cidrs
      = to_revoke permsStale (["3.3.3.3/32"] : List String).toFinset :=
  (c5_at_most_three_calls permsStale ["3.3.3.3/32"]).2.2.2.2.1
    (Mutation.mk false "tcp" HTTP_PORT HTTP_PORT {"1.1.1.1/32"}) (by decide) (by decide)

/-- The function `get_current_ip` (lines 31-39) as a function of the response
body of the IP-source provider: the trimmed text with `/32` appended. -/
def get_current_ip (respText : String) : String := respText.trim ++ "/32"

/-- Line 218: `target_http_cidrs = sorted(list(set([home_ip] + cf_ips)))`. -/
def target_http_cidrs (home_ip : String) (cf_ips : List String) : List String :=
  Finset.sort (· ≤ ·) (home_ip :: cf_ips).toFinset

/-- Claim C7: the desired HTTP CIDR list is the union of the current
address of the caller as a `/32` CIDR and the CDN ranges, deduplicated and sorted. -/
theorem c7_target_union_dedup_sorted (respText : String) (cf_ips : List String) :
    (∀ x, x ∈ target_http_cidrs (get_current_ip respText) cf_ips ↔
        x = get_current_ip respText ∨ x ∈ cf_ips) ∧
    (target_http_cidrs (get_current_ip respText) cf_ips).Nodup ∧
    List.Sorted (· ≤ ·) (target_http_cidrs (get_current_ip respText) cf_ips) ∧
    get_current_ip respText = respText.trim ++ "/32" := by
  refine ⟨?_, Finset.sort_nodup _ _, Finset.sort_sorted _ _, rfl⟩
  intro x
  rw [target_http_cidrs, Finset.mem_sort]
  simp [List.mem_toFinset]

/-- Replace the protocol of a permission, keeping ports and ranges. -/
def set_protocol (g : String → String) (p : Perm) : Perm :=
  { p with ipProtocol := g p.ipProtocol }

/-- Claim C10: classification is by port numbers alone — rewriting the protocol of every
permission changes neither the current HTTP set nor the SSH scan,
any port-80/80 permission contributes its CIDRs, any port-22/22 permission
holding 0.0.0.0/0 makes the SSH scan succeed — while every emitted mutation
carries protocol tcp. -/
theorem c10_ports_only_protocol_tcp (perms : List Perm) (allowed : List String)
    (g : String → String) :
    current_http_cidrs (perms.map (set_protocol g)) = current_http_cidrs perms ∧
    ssh_open (perms.map (set_protocol g)) = ssh_open perms ∧
    (∀ p ∈ perms, p.fromPort = some HTTP_PORT → p.toPort = some HTTP_PORT →
      ∀ c ∈ p.ipRanges, c ∈ current_http_cidrs perms) ∧
    (∀ p ∈ perms, p.fromPort = some SSH_PORT → p.toPort = some SSH_PORT →
      "0.0.0.0/0" ∈ p.ipRanges → ssh_open perms = true) ∧
    (∀ m ∈ update_mutations perms allowed, m.ipProtocol = "tcp") := by
  refine ⟨?_, ?_, ?_, ?_, ?_⟩
  · ext c
    simp only [mem_current_http_cidrs, List.mem_map]
    constructor
    · rintro ⟨p, ⟨q, hq, rfl⟩, h1, h2, h3⟩
      exact ⟨q, hq, h1, h2, h3⟩
    · rintro ⟨q, hq, h1, h2, h3⟩
      exact ⟨set_protocol g q, ⟨q, hq, rfl⟩, h1, h2, h3⟩
  · rw [Bool.eq_iff_iff, ssh_open_iff, ssh_open_iff]
    constructor
    · rintro ⟨p, hp, h1, h2, h3⟩
      obtain ⟨q, hq, rfl⟩ := List.mem_map.mp hp
      exact ⟨q, hq, h1, h2, h3⟩
    · rintro ⟨q, hq, h1, h2, h3⟩
      exact ⟨set_protocol g q, List.mem_map.mpr ⟨q, hq, rfl⟩, h1, h2, h3⟩
  · intro p hp h1 h2 c hc
    exact mem_current_http_cidrs.mpr ⟨p, hp, h1, h2, hc⟩
  · intro p hp h1 h2 h3
    exact ssh_open_iff.mpr ⟨p, hp, h1, h2, h3⟩
  · intro m hm
    rcases mem_update_mutations.mp hm with ⟨_, rfl⟩ | ⟨_, rfl⟩ | ⟨_, rfl⟩ <;> rfl

/-- Witness for C10: a CIDR of a port-80 permission lands in the current HTTP set
at a concrete input. -/
theorem c10_ports_only_protocol_tcp_witness :
    "1.1.1.1/32" ∈ current_http_cidrs permsStale :=
  (c10_ports_only_protocol_tcp permsStale [] id).2.2.1
    ⟨some 80, some 80, "tcp", ["1.1.1.1/32"]⟩ (by decide) rfl rfl "1.1.1.1/32" (by decide)

/-! ### The orchestration in `main`

`main` (lines 205-256) is modelled as a pure function of one `World`: the
outcomes of every external call it makes, in program order.  It returns the
trace of externally visible steps together with the process exit code
(`0` success, `1` for the `sys.exit(1)` aborts). -/

/-- Externally visible steps of one run of `main`. -/
inductive Event where
  | resolveDesired
  | readFirewall
  | sshMutation
  | computeDiff
  | httpRevoke
  | httpAuthorize
  | configRead
  | persistConfig
  | gitCommit
  deriving DecidableEq

/-- Outcomes of the external calls of one run: the IP-source response body, the
CDN range list, whether the group lookup succeeds, the firewall-state read
result (`none` is a failed read), and success of each later side-effecting
call.  `gitOk` is the git commit/push outcome; `gitChanges` is whether
`git status` reports changes. -/
structure World where
  ipResp : Option String
  cfResp : Option (List String)
  sgOk : Bool
  describeResult : Option (List Perm)
  sshAuthOk : Bool
  revokeOk : Bool
  authorizeOk : Bool
  configLoadOk : Bool
  configSaveOk : Bool
  gitChanges : Bool
  gitOk : Bool

/-- Lines 241-252 of `main`: load the YAML (fatal when it fails), save the new
desired state (fatal when it fails), then `git_commit_and_push`, whose failure
is swallowed (line 201-203) and which only acts when `git status` reports
changes (line 192).  `t` is the trace accumulated so far. -/
def config_step (w : World) (t : List Event) : List Event × Nat :=
  let t6 := t ++ [Event.configRead]
  if w.configLoadOk = false then (t6, 1)
  else if w.configSaveOk = false then (t6, 1)
  else
    let t7 := t6 ++ [Event.persistConfig]
    (if w.gitChanges then t7 ++ [Event.gitCommit] else t7, 0)

/-- Lines 168-180: when the authorize set is non-empty, issue the authorize
call (fatal when it fails); then continue with the config steps. -/
def auth_step (w : World) (auth : Finset String) (t : List Event) : List Event × Nat :=
  if auth = ∅ then config_step w t
  else if w.authorizeOk = false then (t ++ [Event.httpAuthorize], 1)
  else config_step w (t ++ [Event.httpAuthorize])

/-- Lines 156-166: when the revoke set is non-empty, issue the revoke call
(fatal when it fails); then continue with the authorize step. -/
def rev_step (w : World) (rev auth : Finset String) (t : List Event) : List Event × Nat :=
  if rev = ∅ then auth_step w auth t
  else if w.revokeOk = false then (t ++ [Event.httpRevoke], 1)
  else auth_step w auth (t ++ [Event.httpRevoke])

/-- Lines 142-154: compute the HTTP diff of current permissions against the
target, then run the two HTTP mutation steps. -/
def http_step (w : World) (perms : List Perm) (target : Finset String) (t : List Event) :
    List Event × Nat :=
  rev_step w (to_revoke perms target) (to_authorize perms target)
    (t ++ [Event.computeDiff])

/-- Lines 121-140: after the firewall-state read, add the SSH rule when no open
SSH rule exists (fatal on failure), then continue with the HTTP diff. -/
def ssh_http_steps (w : World) (perms : List Perm) (target : List String) :
    List Event × Nat :=
  let t1 := [Event.resolveDesired, Event.readFirewall]
  if ssh_open perms then http_step w perms target.toFinset t1
  else if w.sshAuthOk = false then (t1 ++ [Event.sshMutation], 1)
  else http_step w perms target.toFinset (t1 ++ [Event.sshMutation])

/-- The run of `main`: resolve desired state (lines 211-218), find the group
(line 234), read firewall state and reconcile inside `update_security_group`
(line 238), load the YAML (line 242), save it (line 248), then git (line 252).
A failed step modelled as fatal in the code stops the trace with exit 1;
the git step never affects the exit code. -/
def mainRun (w : World) : List Event × Nat :=
  match w.ipResp with
  | none => ([], 1)
  | some ipText =>
    match w.cfResp with
    | none => ([], 1)
    | some cf_ips =>
      let target := target_http_cidrs (get_current_ip ipText) cf_ips
      if w.sgOk = false then ([Event.resolveDesired], 1)
      else
        match w.describeResult with
        | none => ([Event.resolveDesired], 1)
        | some perms => ssh_http_steps w perms target

/-- The order in which `main` performs its externally visible steps. -/
def mainOrder : List Event :=
  [Event.resolveDesired, Event.readFirewall, Event.sshMutation, Event.computeDiff,
   Event.httpRevoke, Event.httpAuthorize, Event.configRead, Event.persistConfig,
   Event.gitCommit]

theorem config_step_spec (w : World) (t : List Event) :
    ∃ s e, config_step w t = (t ++ s, e) ∧
      List.Sublist s [Event.configRead, Event.persistConfig, Event.gitCommit] ∧
      (Event.persistConfig ∈ s → e = 0) := by
  by_cases hl : w.configLoadOk = false
  · exact ⟨[Event.configRead], 1, by simp [config_step, hl], by decide, by decide⟩
  · by_cases hs : w.configSaveOk = false
    · exact ⟨[Event.configRead], 1, by simp [config_step, hl, hs], by decide, by decide⟩
    · by_cases hg : w.gitChanges = true
      · exact ⟨[Event.configRead, Event.persistConfig, Event.gitCommit], 0,
          by simp [config_step, hl, hs, hg], by decide, fun _ => rfl⟩
      · exact ⟨[Event.configRead, Event.persistConfig], 0,
          by simp [config_step, hl, hs, hg], by decide, fun _ => rfl⟩

theorem auth_step_spec (w : World) (auth : Finset String) (t : List Event) :
    ∃ s e, auth_step w auth t = (t ++ s, e) ∧
      List.Sublist s [Event.httpAuthorize, Event.configRead, Event.persistConfig,
        Event.gitCommit] ∧
      (Event.persistConfig ∈ s → e = 0) := by
  by_cases ha : auth = ∅
  · obtain ⟨s, e, heq, hsub, himp⟩ := config_step_spec w t
    exact ⟨s, e, by simp only [auth_step, if_pos ha]; exact heq, hsub.cons _, himp⟩
  · by_cases hk : w.authorizeOk = false
    · refine ⟨[Event.httpAuthorize], 1, ?_, by decide, by decide⟩
      simp only [auth_step, if_neg ha, if_pos hk]
    · obtain ⟨s, e, heq, hsub, himp⟩ := config_step_spec w (t ++ [Event.httpAuthorize])
      refine ⟨Event.httpAuthorize :: s, e, ?_, List.Sublist.cons₂ _ hsub, ?_⟩
      · simp only [auth_step, if_neg ha, if_neg hk]
        rw [heq, List.append_assoc, List.singleton_append]
      · intro hm
        rcases List.mem_cons.mp hm with hm | hm
        · simp at hm
        · exact himp hm

theorem rev_step_spec (w : World) (rev auth : Finset String) (t : List Event) :
    ∃ s e, rev_step w rev auth t = (t ++ s, e) ∧
      List.Sublist s [Event.httpRevoke, Event.httpAuthorize, Event.configRead,
        Event.persistConfig, Event.gitCommit] ∧
      (Event.persistConfig ∈ s → e = 0) := by
  by_cases hr : rev = ∅
  · obtain ⟨s, e, heq, hsub, himp⟩ := auth_step_spec w auth t
    exact ⟨s, e, by simp only [rev_step, if_pos hr]; exact heq, hsub.cons _, himp⟩
  · by_cases hk : w.revokeOk = false
    · refine ⟨[Event.httpRevoke], 1, ?_, by decide, by decide⟩
      simp only [rev_step, if_neg hr, if_pos hk]
    · obtain ⟨s, e, heq, hsub, himp⟩ := auth_step_spec w auth (t ++ [Event.httpRevoke])
      refine ⟨Event.httpRevoke :: s, e, ?_, List.Sublist.cons₂ _ hsub, ?_⟩
      · simp only [rev_step, if_neg hr, if_neg hk]
        rw [heq, List.append_assoc, List.singleton_append]
      · intro hm
        rcases List.mem_cons.mp hm with hm | hm
        · simp at hm
        · exact himp hm

theorem http_step_spec (w : World) (perms : List Perm) (target : Finset String)
    (t : List Event) :
    ∃ s e, http_step w perms target t = (t ++ s, e) ∧
      List.Sublist s [Event.computeDiff, Event.httpRevoke, Event.httpAuthorize,
        Event.configRead, Event.persistConfig, Event.gitCommit] ∧
      (Event.persistConfig ∈ s → e = 0) := by
  obtain ⟨s, e, heq, hsub, himp⟩ := rev_step_spec w (to_revoke perms target)
    (to_authorize perms target) (t ++ [Event.computeDiff])
  refine ⟨Event.computeDiff :: s, e, ?_, List.Sublist.cons₂ _ hsub, ?_⟩
  · simp only [http_step]
    rw [heq, List.append_assoc, List.singleton_append]
  · intro hm
    rcases List.mem_cons.mp hm with hm | hm
    · simp at hm
    · exact himp hm

theorem ssh_http_steps_spec (w : World) (perms : List Perm) (target : List String) :
    ∃ s e, ssh_http_steps w perms target
        = ([Event.resolveDesired, Event.readFirewall] ++ s, e) ∧
      List.Sublist s [Event.sshMutation, Event.computeDiff, Event.httpRevoke,
        Event.httpAuthorize, Event.configRead, Event.persistConfig, Event.gitCommit] ∧
      (Event.persistConfig ∈ s → e = 0) := by
  cases hso : ssh_open perms
  · by_cases hak : w.sshAuthOk = false
    · refine ⟨[Event.sshMutation], 1, ?_, by decide, by decide⟩
      simp only [ssh_http_steps, hso]
      rw [if_neg (by decide), if_pos hak]
    · obtain ⟨s, e, heq, hsub, himp⟩ := http_step_spec w perms target.toFinset
        ([Event.resolveDesired, Event.readFirewall] ++ [Event.sshMutation])
      refine ⟨Event.sshMutation :: s, e, ?_, List.Sublist.cons₂ _ hsub, ?_⟩
      · simp only [ssh_http_steps, hso]
        rw [if_neg (by decide), if_neg hak, heq, List.append_assoc, List.singleton_append]
      · intro hm
        rcases List.mem_cons.mp hm with hm | hm
        · simp at hm
        · exact himp hm
  · obtain ⟨s, e, heq, hsub, himp⟩ := http_step_spec w perms target.toFinset
      [Event.resolveDesired, Event.readFirewall]
    refine ⟨s, e, ?_, hsub.cons _, himp⟩
    simp only [ssh_http_steps, hso, if_true]
    exact heq

/-- One spec for the whole run: the trace is a subsequence of `mainOrder` and a
run that persisted the config exits 0. -/
theorem mainRun_spec (w : World) :
    List.Sublist (mainRun w).1 mainOrder ∧
      (Event.persistConfig ∈ (mainRun w).1 → (mainRun w).2 = 0) := by
  obtain ⟨ip, cf, sg, dr, a1, a2, a3, c1, c2, gch, gok⟩ := w
  rcases ip with _ | ipText
  · exact ⟨List.nil_sublist _, by simp [mainRun]⟩
  rcases cf with _ | cfIps
  · exact ⟨List.nil_sublist _, by simp [mainRun]⟩
  by_cases hsg : sg = false
  · subst hsg
    constructor
    · simp only [mainRun]
      rw [if_pos trivial]
      decide
    · simp only [mainRun]
      rw [if_pos trivial]
      decide
  rcases dr with _ | perms
  · constructor
    · simp only [mainRun]
      rw [if_neg hsg]
      decide
    · simp only [mainRun]
      rw [if_neg hsg]
      decide
  obtain ⟨s, e, heq, hsub, himp⟩ :=
    ssh_http_steps_spec ⟨some ipText, some cfIps, sg, some perms, a1, a2, a3, c1, c2, gch, gok⟩
      perms (target_http_cidrs (get_current_ip ipText) cfIps)
  have hrun : mainRun ⟨some ipText, some cfIps, sg, some perms, a1, a2, a3, c1, c2, gch, gok⟩
      = ([Event.resolveDesired, Event.readFirewall] ++ s, e) := by
    simp only [mainRun]
    rw [if_neg hsg]
    exact heq
  rw [hrun]
  constructor
  · rw [show mainOrder = [Event.resolveDesired, Event.readFirewall] ++
        [Event.sshMutation, Event.computeDiff, Event.httpRevoke, Event.httpAuthorize,
          Event.configRead, Event.persistConfig, Event.gitCommit] from rfl]
    exact List.Sublist.append (List.Sublist.refl _) hsub
  · intro hm
    rcases List.mem_append.mp hm with hm | hm
    · simp at hm
    · exact himp hm

/-- Claim C6: when the firewall-state read fails the run exits non-zero and no
mutation call (SSH add, HTTP revoke, HTTP authorize) appears in the trace. -/
theorem c6_read_failure_no_mutation (w : World) (h : w.describeResult = none) :
    (mainRun w).2 = 1 ∧
    ∀ e ∈ (mainRun w).1,
      e ≠ Event.sshMutation ∧ e ≠ Event.httpRevoke ∧ e ≠ Event.httpAuthorize := by
  obtain ⟨ip, cf, sg, dr, a1, a2, a3, c1, c2, gch, gok⟩ := w
  simp only at h
  subst h
  rcases ip with _ | ipText <;> rcases cf with _ | cfIps <;> cases sg <;>
    simp only [mainRun] <;> decide

/-- A world whose firewall-state read fails. -/
def worldReadFail : World :=
  ⟨some "1.1.1.1", some [], true, none, true, true, true, true, true, true, true⟩

/-- Witness for C6 at a concrete failed read. -/
theorem c6_read_failure_no_mutation_witness :
    (mainRun worldReadFail).2 = 1 ∧
    ∀ e ∈ (mainRun worldReadFail).1,
      e ≠ Event.sshMutation ∧ e ≠ Event.httpRevoke ∧ e ≠ Event.httpAuthorize :=
  c6_read_failure_no_mutation worldReadFail rfl

/-- Claim C9: a git failure is non-fatal — any run that reached config
persistence exits 0, whatever the git outcome. -/
theorem c9_git_failure_nonfatal (w : World) (hgit : w.gitOk = false)
    (hp : Event.persistConfig ∈ (mainRun w).1) : (mainRun w).2 = 0 :=
  (mainRun_spec w).2 hp

/-- Evaluation of a run on an empty rule set (SSH absent, no HTTP rule) with
every call succeeding and pending git changes; the git outcome is irrelevant
to trace and exit code. -/
theorem mainRun_worldNoRules (gok : Bool) :
    mainRun ⟨some "1.1.1.1", some [], true, some [], true, true, true, true, true, true, gok⟩
      = ([Event.resolveDesired, Event.readFirewall, Event.sshMutation, Event.computeDiff,
          Event.httpAuthorize, Event.configRead, Event.persistConfig, Event.gitCommit],
          0) := by
  have hT : (target_http_cidrs (get_current_ip "1.1.1.1") []).toFinset
      = ({get_current_ip "1.1.1.1"} : Finset String) := by
    rw [target_http_cidrs, Finset.sort_toFinset]
    simp
  have hrev : to_revoke [] (target_http_cidrs (get_current_ip "1.1.1.1") []).toFinset = ∅ := by
    simp [to_revoke, current_http_cidrs]
  have hauth :
      to_authorize [] (target_http_cidrs (get_current_ip "1.1.1.1") []).toFinset ≠ ∅ := by
    rw [to_authorize, hT]
    simp [current_http_cidrs]
  simp [mainRun, ssh_http_steps, http_step, rev_step, auth_step, config_step,
    ssh_open, hrev, hauth]

/-- A world whose git push fails after a successful sync. -/
def worldGitFail : World :=
  ⟨some "1.1.1.1", some [], true, some [], true, true, true, true, true, true, false⟩

/-- Witness for C9: a concrete run whose git push fails still exits 0. -/
theorem c9_git_failure_nonfatal_witness : (mainRun worldGitFail).2 = 0 :=
  c9_git_failure_nonfatal worldGitFail rfl
    (by simp only [worldGitFail, mainRun_worldNoRules]; decide)

/-- The relative-order predicate the spec asserts: whenever both events occur
in the trace, the first occurs strictly earlier. -/
def beforeIn (t : List Event) (a b : Event) : Prop :=
  a ∈ t → b ∈ t → t.indexOf a < t.indexOf b

instance beforeInDecidable (t : List Event) (a b : Event) : Decidable (beforeIn t a b) :=
  inferInstanceAs (Decidable (a ∈ t → b ∈ t → t.indexOf a < t.indexOf b))

/-- The operation order claim C8 asserts of every run: resolve desired state,
read firewall state, compute the diff, apply the SSH mutation, apply the HTTP
mutations, persist config, commit — with the config store read before the
diff is computed. -/
def specC8Order (t : List Event) : Prop :=
  beforeIn t Event.resolveDesired Event.readFirewall ∧
  beforeIn t Event.readFirewall Event.computeDiff ∧
  beforeIn t Event.computeDiff Event.sshMutation ∧
  beforeIn t Event.sshMutation Event.httpRevoke ∧
  beforeIn t Event.sshMutation Event.httpAuthorize ∧
  beforeIn t Event.httpRevoke Event.persistConfig ∧
  beforeIn t Event.httpAuthorize Event.persistConfig ∧
  beforeIn t Event.persistConfig Event.gitCommit ∧
  beforeIn t Event.configRead Event.computeDiff

instance specC8OrderDecidable (t : List Event) : Decidable (specC8Order t) := by
  unfold specC8Order
  infer_instance

/-- A world with no existing rules whose run performs every step. -/
def worldC8 : World :=
  ⟨some "1.1.1.1", some [], true, some [], true, true, true, true, true, true, true⟩

/-- Counterexample to claim C8 as stated: in the run on `worldC8` the SSH
mutation precedes the diff computation, and the config store is read only
after the diff — the claimed order fails. -/
theorem c8_counterexample_order : ¬ specC8Order (mainRun worldC8).1 := by
  simp only [worldC8, mainRun_worldNoRules]
  decide

/-- Claim C8 (amended): the trace of every run is a subsequence of resolve desired
state → read firewall state → SSH mutation → compute diff → HTTP revoke →
HTTP authorize → config read → persist config → commit, and a run that
persisted the config reports success. -/
theorem c8_amended_strict_order (w : World) :
    List.Sublist (mainRun w).1 mainOrder ∧
      (Event.persistConfig ∈ (mainRun w).1 → (mainRun w).2 = 0) :=
  mainRun_spec w

/-- Witness for C8 (amended) at `worldC8`. -/
theorem c8_amended_strict_order_witness : (mainRun worldC8).2 = 0 :=
  (c8_amended_strict_order worldC8).2
    (by simp only [worldC8, mainRun_worldNoRules]; decide)

end SyncSecurityGroup
